import Mathlib

/-!
Shallow embedding of the e-commerce analytics core (`data_loader.py`,
`business_metrics.py`, and the dashboard glue that derives the
delivery-time category column).

Modelling conventions:
* a DataFrame is a `List` of row structures, in row order;
* identifiers (order, item, product) are modelled as `ℕ` — the source uses
  opaque strings compared only for equality;
* prices and revenues are `ℚ` (the source uses floats, but every claim is
  about exact arithmetic);
* a pandas timestamp is a record carrying its calendar `year`/`month`
  together with its absolute time `absDays` measured in (rational) days,
  so that timestamp subtraction followed by `.dt.days` is
  `Int.floor (difference of absDays)`;
* a nullable column is `Option`; pandas `NaN` propagating out of a
  reduction (`mean` of an empty selection, `pct_change` of a first row,
  division by zero) is `PyFloat.nan` / `Option.none` as noted at each
  definition;
* `pd.merge(..., on=k)` (inner) is a `flatMap` over the left table of the
  matching right rows, which reproduces pandas' inner-merge multiplicity
  and left-to-right row order;
* `groupby(k)` sorts the group keys ascending and (for a `NaN`-able key)
  drops missing keys, which is modelled explicitly below.
-/

/-- `drop_duplicates` / `unique`: keep the first occurrence of each value,
in order of first appearance (pandas semantics). -/
def dropDuplicates {α : Type} [DecidableEq α] : List α → List α
  | [] => []
  | x :: xs => x :: dropDuplicates (xs.filter (fun y => y ≠ x))
termination_by l => l.length
decreasing_by
  simp only [List.length_cons]
  exact Nat.lt_succ_of_le (List.length_filter_le _ _)

/-- A Python float as far as the embedded code can observe it: `nan`,
signed infinity, or a finite (rational) value. -/
inductive PyFloat : Type where
  | nan : PyFloat
  | inf : PyFloat
  | ninf : PyFloat
  | num : ℚ → PyFloat
deriving DecidableEq

/-- IEEE-754 `<=` on the observable floats: any comparison involving
`nan` is false. -/
def PyFloat.le : PyFloat → PyFloat → Bool
  | .nan, _ => false
  | _, .nan => false
  | .ninf, _ => true
  | _, .ninf => false
  | .inf, .inf => true
  | .inf, _ => false
  | .num _, .inf => true
  | .num a, .num b => a ≤ b

/-- IEEE-754 division of two finite values: `x / 0` is `±inf` for
`x ≠ 0` and `nan` for `x = 0`; otherwise the exact quotient. -/
def floatDiv (a b : ℚ) : PyFloat :=
  if b = 0 then
    if a = 0 then PyFloat.nan
    else if 0 < a then PyFloat.inf
    else PyFloat.ninf
  else PyFloat.num (a / b)

/-- A parsed pandas timestamp: calendar fields plus absolute time in days
(rational, so sub-day components are kept for subtraction). -/
structure Timestamp : Type where
  year : ℤ
  month : ℕ
  absDays : ℚ
deriving DecidableEq

/-- One row of the `orders` table, restricted to the columns the embedded
functions read (`load_orders` columns). -/
structure OrderRow : Type where
  order_id : ℕ
  order_status : String
  order_purchase_timestamp : Timestamp
  order_delivered_customer_date : Option Timestamp
deriving DecidableEq

/-- One row of the `order_items` table, restricted to the columns read by
`build_sales_data`. -/
structure ItemRow : Type where
  order_id : ℕ
  order_item_id : ℕ
  product_id : ℕ
  price : ℚ
deriving DecidableEq

/-- One row of the `products` table: `product_category_name` is nullable. -/
structure ProductRow : Type where
  product_id : ℕ
  product_category_name : Option String
deriving DecidableEq

/-- One row of the `reviews` table, restricted to the two columns the
metrics read. -/
structure ReviewRow : Type where
  order_id : ℕ
  review_score : ℕ
deriving DecidableEq

/-- One row of the flat sales DataFrame produced by `build_sales_data`. -/
structure SalesRow : Type where
  order_id : ℕ
  order_item_id : ℕ
  product_id : ℕ
  price : ℚ
  order_status : String
  order_purchase_timestamp : Timestamp
  order_delivered_customer_date : Option Timestamp
  month : ℕ
  year : ℤ
deriving DecidableEq

/-- A sales row after `add_delivery_speed`: the same columns plus the
nullable `delivery_speed_days` column. -/
structure SalesRowS extends SalesRow where
  delivery_speed_days : Option ℤ
deriving DecidableEq

/-- A sales row after the dashboard also applies
`categorize_delivery_speed` to produce the `delivery_time` column. -/
structure SalesRowC extends SalesRowS where
  delivery_time : String
deriving DecidableEq

/-- `data_loader.build_sales_data`: inner-merge `order_items` (left) with
`orders` (right) on `order_id`, then derive `month` and `year` from the
purchase timestamp.  Left row order with right-match multiplicity, as
`pd.merge(how='inner')` produces. -/
def build_sales_data (orders : List OrderRow) (order_items : List ItemRow) :
    List SalesRow :=
  order_items.flatMap (fun it =>
    (orders.filter (fun o => o.order_id == it.order_id)).map (fun o =>
      { order_id := it.order_id
        order_item_id := it.order_item_id
        product_id := it.product_id
        price := it.price
        order_status := o.order_status
        order_purchase_timestamp := o.order_purchase_timestamp
        order_delivered_customer_date := o.order_delivered_customer_date
        month := o.order_purchase_timestamp.month
        year := o.order_purchase_timestamp.year }))

/-- `data_loader.add_delivery_speed`: copy the frame and add
`delivery_speed_days = (order_delivered_customer_date −
order_purchase_timestamp).dt.days`; a missing delivery date yields a
missing value (pandas `NaN`, here `none`). `.dt.days` of a timedelta is
the floor of its length in days. -/
def add_delivery_speed (sales_data : List SalesRow) : List SalesRowS :=
  sales_data.map (fun s =>
    { toSalesRow := s
      delivery_speed_days := s.order_delivered_customer_date.map
        (fun d => ⌊d.absDays - s.order_purchase_timestamp.absDays⌋) })

/-- `data_loader.categorize_delivery_speed`, on an observable float so
that a `NaN` argument can be passed exactly as Python would: both guards
use IEEE `<=`. -/
def categorize_delivery_speed (days : PyFloat) : String :=
  if days.le (PyFloat.num 3) then "1-3 days"
  else if days.le (PyFloat.num 7) then "4-7 days"
  else "8+ days"

/-- The dashboard glue
`sales["delivery_time"] = sales["delivery_speed_days"].apply(categorize_delivery_speed)`:
a missing speed is passed to the categorizer as `NaN`. -/
def addDeliveryTime (sales_data : List SalesRowS) : List SalesRowC :=
  sales_data.map (fun s =>
    { toSalesRowS := s
      delivery_time := categorize_delivery_speed
        (match s.delivery_speed_days with
         | none => PyFloat.nan
         | some d => PyFloat.num d) })

/-- `business_metrics.calculate_total_revenue`: sum of the `price`
column. -/
def calculate_total_revenue (sales_data : List SalesRow) : ℚ :=
  (sales_data.map (fun s => s.price)).sum

/-- `business_metrics.calculate_revenue_growth`: `(current − previous) /
previous`, returning `float('nan')` (modelled `none`) when `previous` is
zero. -/
def calculate_revenue_growth (current_revenue previous_revenue : ℚ) :
    Option ℚ :=
  if previous_revenue = 0 then none
  else some ((current_revenue - previous_revenue) / previous_revenue)

/-- The ascending-sorted distinct keys of a key column: what
`groupby(key)` groups over (pandas sorts group keys ascending). -/
def groupKeys {α : Type} [DecidableEq α] (r : α → α → Prop) [DecidableRel r]
    (keys : List α) : List α :=
  List.insertionSort r (dropDuplicates keys)

/-- `business_metrics.calculate_monthly_revenue`:
`groupby("month")["price"].sum()` — a Series indexed by the ascending
distinct months. -/
def calculate_monthly_revenue (sales_data : List SalesRow) :
    List (ℕ × ℚ) :=
  (groupKeys (· ≤ ·) (sales_data.map (fun s => s.month))).map (fun m =>
    (m, ((sales_data.filter (fun s => s.month == m)).map
      (fun s => s.price)).sum))

/-- `Series.pct_change()` on a keyed series: the first entry is `NaN`,
every later entry is `(v − prev) / prev` under float division. -/
def pct_change (l : List (ℕ × ℚ)) : List (ℕ × PyFloat) :=
  match l with
  | [] => []
  | x :: rest =>
    (x.1, PyFloat.nan) ::
      List.zipWith (fun p c => (c.1, floatDiv (c.2 - p.2) p.2)) (x :: rest) rest

/-- `business_metrics.calculate_monthly_growth`: `pct_change` of the
monthly revenue series. -/
def calculate_monthly_growth (sales_data : List SalesRow) :
    List (ℕ × PyFloat) :=
  pct_change (calculate_monthly_revenue sales_data)

/-- `business_metrics.calculate_average_order_value`:
`groupby("order_id")["price"].sum().mean()`.  The mean of an empty
Series is `NaN` (modelled `none`). -/
def calculate_average_order_value (sales_data : List SalesRow) :
    Option ℚ :=
  let ids := groupKeys (· ≤ ·) (sales_data.map (fun s => s.order_id))
  if ids.isEmpty then none
  else some ((ids.map (fun o =>
    ((sales_data.filter (fun s => s.order_id == o)).map
      (fun s => s.price)).sum)).sum / ids.length)

/-- `business_metrics.calculate_order_count`: `nunique()` of the
`order_id` column. -/
def calculate_order_count (sales_data : List SalesRow) : ℕ :=
  (dropDuplicates (sales_data.map (fun s => s.order_id))).length

/-- The descending-revenue order used by `sort_values(ascending=False)`
on a (category, revenue) table. -/
def revDescRel (a b : String × ℚ) : Prop :=
  b.2 ≤ a.2

instance : DecidableRel revDescRel :=
  fun a b => inferInstanceAs (Decidable (b.2 ≤ a.2))

instance : IsTotal (String × ℚ) revDescRel :=
  ⟨fun a b => le_total b.2 a.2⟩

instance : IsTrans (String × ℚ) revDescRel :=
  ⟨fun _ _ _ h1 h2 => le_trans h2 h1⟩

/-- `business_metrics.calculate_category_revenue`: inner-merge `products`
(left) with the sales rows (right) on `product_id`, group by
`product_category_name` (a nullable key, so missing categories are
dropped by `groupby`), sum `price`, and sort descending by revenue. -/
def calculate_category_revenue (sales_data : List SalesRow)
    (products : List ProductRow) : List (String × ℚ) :=
  let merged := products.flatMap (fun p =>
    (sales_data.filter (fun s => s.product_id == p.product_id)).map
      (fun s => (p.product_category_name, s.price)))
  let cats := groupKeys (· ≤ ·) (merged.filterMap (fun r => r.1))
  List.insertionSort revDescRel (cats.map (fun c =>
    (c, ((merged.filter (fun r => r.1 == some c)).map
      (fun r => r.2)).sum)))

/-- `business_metrics.calculate_review_score_distribution`: keep the
reviews whose `order_id` occurs among the sales rows' order ids, then
`value_counts(normalize=True).sort_index()` on `review_score` — observed
scores ascending, each mapped to its relative frequency. -/
def calculate_review_score_distribution (sales_data : List SalesRow)
    (reviews : List ReviewRow) : List (ℕ × ℚ) :=
  let order_ids := dropDuplicates (sales_data.map (fun s => s.order_id))
  let relevant := reviews.filter (fun r => order_ids.contains r.order_id)
  let scores := relevant.map (fun r => r.review_score)
  (groupKeys (· ≤ ·) scores).map (fun v =>
    (v, ((scores.countP (fun w => w == v) : ℕ) : ℚ) / scores.length))

/-- The four columns `calculate_delivery_review_correlation` keeps before
`drop_duplicates()`. -/
def drcKey (s : SalesRowC) (score : ℕ) : ℕ × Option ℤ × String × ℕ :=
  (s.order_id, s.delivery_speed_days, s.delivery_time, score)

/-- The inner merge of the speed-augmented sales rows with
`reviews[["order_id", "review_score"]]` on the one shared column
`order_id`. -/
def drcMerged (sales_data_with_speed : List SalesRowC)
    (reviews : List ReviewRow) : List (SalesRowC × ℕ) :=
  sales_data_with_speed.flatMap (fun s =>
    (reviews.filter (fun r => r.order_id == s.order_id)).map
      (fun r => (s, r.review_score)))

/-- The de-duplicated one-row-per-order table of
`calculate_delivery_review_correlation`:
`merged[["order_id","delivery_speed_days","delivery_time","review_score"]].drop_duplicates()`. -/
def drcPerOrder (sales_data_with_speed : List SalesRowC)
    (reviews : List ReviewRow) : List (ℕ × Option ℤ × String × ℕ) :=
  dropDuplicates ((drcMerged sales_data_with_speed reviews).map
    (fun x => drcKey x.1 x.2))

/-- `business_metrics.calculate_delivery_review_correlation`: merge with
the reviews, de-duplicate the four kept columns, then group by
`delivery_time` and average `review_score`. -/
def calculate_delivery_review_correlation
    (sales_data_with_speed : List SalesRowC) (reviews : List ReviewRow) :
    List (String × ℚ) :=
  let per_order := drcPerOrder sales_data_with_speed reviews
  (groupKeys (· ≤ ·) (per_order.map (fun t => t.2.2.1))).map (fun c =>
    let grp := per_order.filter (fun t => t.2.2.1 == c)
    (c, ((grp.map (fun t => (t.2.2.2 : ℚ))).sum) / grp.length))

/-- `business_metrics.calculate_average_delivery_time`: `mean()` of the
`delivery_speed_days` column; pandas `mean` skips `NaN` entries and
returns `NaN` (here `none`) when no value remains. -/
def calculate_average_delivery_time
    (sales_data_with_speed : List SalesRowS) : Option ℚ :=
  let vals : List ℤ := sales_data_with_speed.filterMap
    (fun s => s.delivery_speed_days)
  if vals.isEmpty then none
  else some ((vals.map (fun d => (d : ℚ))).sum / vals.length)

/-- A fixed purchase timestamp in the given month of 2023, used by the
concrete test tables below. -/
def sampleTs (month : ℕ) : Timestamp :=
  { year := 2023, month := month, absDays := 0 }

/-- A one-item sales row for concrete test tables. -/
def sampleRow (oid : ℕ) (price : ℚ) (month : ℕ) : SalesRow :=
  { order_id := oid
    order_item_id := 1
    product_id := 1
    price := price
    order_status := "delivered"
    order_purchase_timestamp := sampleTs month
    order_delivered_customer_date := none
    month := month
    year := 2023 }

/-- A sales row delivered `days` days after purchase, for concrete test
tables. -/
def deliveredRow (oid : ℕ) (days : ℚ) : SalesRow :=
  { sampleRow oid 10 1 with
    order_delivered_customer_date := some { year := 2023, month := 1, absDays := days } }

/-- A speed-and-category sales row for concrete correlation tables. -/
def sampleRowC (oid iid : ℕ) (speed : ℤ) (cat : String) : SalesRowC :=
  { toSalesRow := { sampleRow oid 10 1 with order_item_id := iid }
    delivery_speed_days := some speed
    delivery_time := cat }

/-- An order-table row for concrete test tables. -/
def sampleOrder (oid : ℕ) : OrderRow :=
  { order_id := oid
    order_status := "delivered"
    order_purchase_timestamp := sampleTs 1
    order_delivered_customer_date := none }

/-- An order-item row for concrete test tables. -/
def sampleItem (oid iid pid : ℕ) (price : ℚ) : ItemRow :=
  { order_id := oid, order_item_id := iid, product_id := pid, price := price }

/-- A product-catalog row for concrete test tables. -/
def sampleProduct (pid : ℕ) (cat : String) : ProductRow :=
  { product_id := pid, product_category_name := some cat }

/-- A sales row carrying a given product id, for concrete category-revenue
tables. -/
def salesForProduct (pid : ℕ) (price : ℚ) : SalesRow :=
  { sampleRow 1 price 1 with product_id := pid }

/-- A review row for concrete test tables. -/
def sampleReview (oid score : ℕ) : ReviewRow :=
  { order_id := oid, review_score := score }

theorem dropDuplicates_nil {α : Type} [DecidableEq α] :
    dropDuplicates ([] : List α) = [] := by
  simp [dropDuplicates]

theorem dropDuplicates_cons {α : Type} [DecidableEq α] (x : α) (xs : List α) :
    dropDuplicates (x :: xs) =
      x :: dropDuplicates (xs.filter (fun y => y ≠ x)) := by
  rw [dropDuplicates]

theorem mem_dropDuplicates {α : Type} [DecidableEq α] (a : α) :
    ∀ l : List α, a ∈ dropDuplicates l ↔ a ∈ l
  | [] => by simp [dropDuplicates_nil]
  | x :: xs => by
    rw [dropDuplicates_cons]
    constructor
    · intro h
      rcases List.mem_cons.mp h with h | h
      · exact h ▸ List.mem_cons_self x xs
      · have hmem := (mem_dropDuplicates a (xs.filter (fun y => y ≠ x))).mp h
        exact List.mem_cons_of_mem x (List.mem_of_mem_filter hmem)
    · intro h
      rcases List.mem_cons.mp h with h | h
      · exact h ▸ List.mem_cons_self x _
      · by_cases hax : a = x
        · exact hax ▸ List.mem_cons_self x _
        · refine List.mem_cons_of_mem x ?_
          refine (mem_dropDuplicates a _).mpr ?_
          exact List.mem_filter.mpr ⟨h, by simpa using hax⟩
termination_by l => l.length
decreasing_by
  all_goals
    simp only [List.length_cons]
    exact Nat.lt_succ_of_le (List.length_filter_le _ _)

theorem nodup_dropDuplicates {α : Type} [DecidableEq α] :
    ∀ l : List α, (dropDuplicates l).Nodup
  | [] => by simp [dropDuplicates_nil]
  | x :: xs => by
    rw [dropDuplicates_cons]
    refine List.nodup_cons.mpr ⟨fun hmem => ?_, nodup_dropDuplicates _⟩
    have hx := (mem_dropDuplicates x _).mp hmem
    have := List.mem_filter.mp hx
    simp at this
termination_by l => l.length
decreasing_by
  all_goals
    simp only [List.length_cons]
    exact Nat.lt_succ_of_le (List.length_filter_le _ _)

theorem sum_map_const_one {α : Type} (l : List α) :
    (l.map (fun _ => (1 : ℚ))).sum = l.length := by
  induction l with
  | nil => simp
  | cons x xs ih => simp [ih]; ring

theorem sum_map_div {α : Type} (g : α → ℚ) (c : ℚ) (l : List α) :
    (l.map (fun v => g v / c)).sum = (l.map g).sum / c := by
  induction l with
  | nil => simp
  | cons x xs ih => simp [ih, add_div]

theorem sum_map_filter_add {α : Type} (p : α → Bool) (f : α → ℚ) (l : List α) :
    ((l.filter p).map f).sum + ((l.filter (fun x => !(p x))).map f).sum =
      (l.map f).sum := by
  induction l with
  | nil => simp
  | cons x xs ih =>
    by_cases h : p x
    · simp only [List.filter_cons, h, if_pos, Bool.not_true, if_neg, List.map_cons,
        List.sum_cons, ite_true, Bool.false_eq_true, ite_false]
      rw [← ih]; ring
    · simp only [List.filter_cons, h, Bool.not_false, List.map_cons, List.sum_cons,
        Bool.false_eq_true, ite_false, ite_true]
      rw [← ih]; ring

theorem sum_grouped {α κ : Type} [DecidableEq κ] (key : α → κ) (f : α → ℚ) :
    ∀ l : List α,
      ((dropDuplicates (l.map key)).map (fun k =>
        ((l.filter (fun a => key a == k)).map f).sum)).sum = (l.map f).sum
  | [] => by simp [dropDuplicates_nil]
  | x :: xs => by
    have hfm : (xs.map key).filter (fun y => y ≠ key x) =
        (xs.filter (fun a => key a ≠ key x)).map key := by
      rw [List.filter_map]
      rfl
    have hhead : ((List.filter (fun a => key a == key x) (x :: xs)).map f).sum
        = f x + ((xs.filter (fun a => key a == key x)).map f).sum := by
      rw [List.filter_cons]
      simp
    have htail : ∀ k ∈ dropDuplicates ((xs.filter (fun a => key a ≠ key x)).map key),
        ((List.filter (fun a => key a == k) (x :: xs)).map f).sum
          = (((xs.filter (fun a => key a ≠ key x)).filter
              (fun a => key a == k)).map f).sum := by
      intro k hk
      have hkmem : k ∈ (xs.filter (fun a => key a ≠ key x)).map key :=
        (mem_dropDuplicates k _).mp hk
      obtain ⟨a, ha, hak⟩ := List.mem_map.mp hkmem
      have haq : key a ≠ key x := by
        have hmf := List.mem_filter.mp ha
        simpa using hmf.2
      have hkx : k ≠ key x := hak ▸ haq
      have h1 : List.filter (fun a => key a == k) (x :: xs)
          = xs.filter (fun a => key a == k) := by
        rw [List.filter_cons]
        have hfalse : (key x == k) = false := by
          simp only [beq_eq_false_iff_ne]
          exact fun h => hkx h.symm
        simp [hfalse]
      have h2 : (xs.filter (fun a => key a ≠ key x)).filter (fun a => key a == k)
          = xs.filter (fun a => key a == k) := by
        rw [List.filter_filter]
        apply List.filter_congr
        intro a _
        by_cases hk2 : key a = k
        · simp [hk2, hkx]
        · simp [hk2]
      rw [h1, h2]
    rw [List.map_cons, dropDuplicates_cons, hfm, List.map_cons, List.sum_cons,
      List.map_congr_left htail, sum_grouped key f (xs.filter (fun a => key a ≠ key x)),
      hhead]
    have hneg : xs.filter (fun a => !(key a == key x)) =
        xs.filter (fun a => key a ≠ key x) := by
      apply List.filter_congr
      intro a _
      by_cases h : key a = key x <;> simp [h]
    have hpart := sum_map_filter_add (fun a => key a == key x) f xs
    rw [hneg] at hpart
    rw [List.map_cons, List.sum_cons, ← hpart]
    ring
termination_by l => l.length
decreasing_by
  all_goals
    simp only [List.length_cons]
    exact Nat.lt_succ_of_le (List.length_filter_le _ _)

theorem groupKeys_perm {α : Type} [DecidableEq α] (r : α → α → Prop)
    [DecidableRel r] (keys : List α) :
    (groupKeys r keys).Perm (dropDuplicates keys) :=
  List.perm_insertionSort r _

theorem sum_map_groupKeys {α : Type} [DecidableEq α] (r : α → α → Prop)
    [DecidableRel r] (f : α → ℚ) (keys : List α) :
    ((groupKeys r keys).map f).sum = ((dropDuplicates keys).map f).sum :=
  ((groupKeys_perm r keys).map f).sum_eq

theorem mem_groupKeys {α : Type} [DecidableEq α] {r : α → α → Prop}
    [DecidableRel r] {a : α} {keys : List α} :
    a ∈ groupKeys r keys ↔ a ∈ keys := by
  rw [(groupKeys_perm r keys).mem_iff, mem_dropDuplicates]

theorem nodup_groupKeys {α : Type} [DecidableEq α] (r : α → α → Prop)
    [DecidableRel r] (keys : List α) : (groupKeys r keys).Nodup :=
  (groupKeys_perm r keys).nodup_iff.mpr (nodup_dropDuplicates _)

theorem length_groupKeys {α : Type} [DecidableEq α] (r : α → α → Prop)
    [DecidableRel r] (keys : List α) :
    (groupKeys r keys).length = (dropDuplicates keys).length :=
  (groupKeys_perm r keys).length_eq

theorem sorted_groupKeys {α : Type} [DecidableEq α] (r : α → α → Prop)
    [DecidableRel r] [IsTotal α r] [IsTrans α r] (keys : List α) :
    List.Sorted r (groupKeys r keys) :=
  List.sorted_insertionSort r _

theorem sum_grouped_count (l : List ℕ) :
    ((dropDuplicates l).map (fun v => ((l.countP (fun w => w == v) : ℕ) : ℚ))).sum
      = (l.length : ℚ) := by
  have h := sum_grouped (fun v : ℕ => v) (fun _ => (1 : ℚ)) l
  simp only [List.map_id'] at h
  have hcongr : ∀ v ∈ dropDuplicates l,
      ((l.countP (fun w => w == v) : ℕ) : ℚ)
        = ((l.filter (fun a => a == v)).map (fun _ => (1 : ℚ))).sum := by
    intro v _
    rw [sum_map_const_one, List.countP_eq_length_filter]
  rw [List.map_congr_left hcongr, h, sum_map_const_one]

theorem countP_le_one_of_nodup {α : Type} (p : α → Bool) (l : List α)
    (hnd : l.Nodup) (huniq : ∀ a ∈ l, ∀ b ∈ l, p a → p b → a = b) :
    l.countP p ≤ 1 := by
  induction l with
  | nil => simp
  | cons x xs ih =>
    rcases List.nodup_cons.mp hnd with ⟨hx, hnd2⟩
    by_cases hpx : p x
    · rw [List.countP_cons_of_pos _ _ hpx]
      have hz : xs.countP p = 0 := by
        rw [List.countP_eq_zero]
        intro a ha hpa
        have hax : a = x := huniq a (List.mem_cons_of_mem x ha) x
          (List.mem_cons_self x xs) hpa hpx
        exact hx (hax ▸ ha)
      omega
    · rw [List.countP_cons_of_neg _ _ hpx]
      exact ih hnd2 (fun a ha b hb hpa hpb =>
        huniq a (List.mem_cons_of_mem x ha) b (List.mem_cons_of_mem x hb) hpa hpb)

theorem filter_key_length_le_one {β κ : Type} [DecidableEq κ] (f : β → κ)
    (k : κ) (l : List β) (hnd : (l.map f).Nodup) :
    (l.filter (fun o => f o == k)).length ≤ 1 := by
  induction l with
  | nil => simp
  | cons x xs ih =>
    rw [List.map_cons] at hnd
    rcases List.nodup_cons.mp hnd with ⟨hx, hnd2⟩
    rw [List.filter_cons]
    by_cases hfx : (f x == k) = true
    · have hnil : xs.filter (fun o => f o == k) = [] := by
        rw [List.filter_eq_nil_iff]
        intro a ha hpa
        have h1 : f a = k := by simpa using hpa
        have h2 : f x = k := by simpa using hfx
        exact hx (List.mem_map.mpr ⟨a, ha, by rw [h1, h2]⟩)
      simp [hfx, hnil]
    · simp only [hfx, if_neg, Bool.false_eq_true, ite_false]
      exact ih hnd2

theorem filter_key_length_eq_one {β κ : Type} [DecidableEq κ] (f : β → κ)
    (k : κ) (l : List β) (hnd : (l.map f).Nodup) (hk : k ∈ l.map f) :
    (l.filter (fun o => f o == k)).length = 1 := by
  induction l with
  | nil => simp at hk
  | cons x xs ih =>
    rw [List.map_cons] at hnd
    rcases List.nodup_cons.mp hnd with ⟨hx, hnd2⟩
    rw [List.filter_cons]
    by_cases hfx : (f x == k) = true
    · have hnil : xs.filter (fun o => f o == k) = [] := by
        rw [List.filter_eq_nil_iff]
        intro a ha hpa
        have h1 : f a = k := by simpa using hpa
        have h2 : f x = k := by simpa using hfx
        exact hx (List.mem_map.mpr ⟨a, ha, by rw [h1, h2]⟩)
      simp [hfx, hnil]
    · have hfxne : f x ≠ k := by simpa using hfx
      have hk2 : k ∈ xs.map f := by
        rw [List.map_cons] at hk
        rcases List.mem_cons.mp hk with h | h
        · exact absurd h.symm hfxne
        · exact h
      simp only [hfx, if_neg, Bool.false_eq_true, ite_false]
      exact ih hnd2 hk2

theorem length_flatMap_eq {β γ : Type} (g : β → List γ) (l : List β) :
    (l.flatMap g).length = (l.map (fun a => (g a).length)).sum := by
  induction l with
  | nil => simp
  | cons x xs ih => simp [List.flatMap_cons, ih]

theorem sum_map_le_length {β : Type} (g : β → ℕ) (l : List β)
    (h : ∀ x ∈ l, g x ≤ 1) : (l.map g).sum ≤ l.length := by
  induction l with
  | nil => simp
  | cons x xs ih =>
    simp only [List.map_cons, List.sum_cons, List.length_cons]
    have h1 := h x (List.mem_cons_self x xs)
    have h2 := ih (fun a ha => h a (List.mem_cons_of_mem x ha))
    omega

theorem sum_map_eq_length {β : Type} (g : β → ℕ) (l : List β)
    (h : ∀ x ∈ l, g x = 1) : (l.map g).sum = l.length := by
  induction l with
  | nil => simp
  | cons x xs ih =>
    simp only [List.map_cons, List.sum_cons, List.length_cons]
    have h1 := h x (List.mem_cons_self x xs)
    have h2 := ih (fun a ha => h a (List.mem_cons_of_mem x ha))
    omega

/-- C2: `calculate_revenue_growth` returns the undefined (not-a-number)
value, never an error and never `0`, whenever the previous revenue is
zero; for a nonzero previous revenue it returns
`(current − previous) / previous`, so `revenue_growth 110 100 = 0.10`. -/
theorem revenue_growth_nan_on_zero_previous :
    (∀ x : ℚ, calculate_revenue_growth x 0 = none) ∧
    (∀ current previous : ℚ, previous ≠ 0 →
      calculate_revenue_growth current previous =
        some ((current - previous) / previous)) ∧
    calculate_revenue_growth 110 100 = some (1 / 10) := by
  refine ⟨fun x => by simp [calculate_revenue_growth],
    fun c p hp => by simp [calculate_revenue_growth, hp], ?_⟩
  norm_num [calculate_revenue_growth]

/-- Witness for C2 at a concrete nonzero previous revenue. -/
theorem revenue_growth_nan_on_zero_previous_witness :
    calculate_revenue_growth 7 5 = some ((7 - 5) / 5) :=
  revenue_growth_nan_on_zero_previous.2.1 7 5 (by norm_num)

/-- C9: `categorize_delivery_speed` on a concrete numeric day count
returns "1-3 days" for `days ≤ 3`, "4-7 days" for `4 ≤ days ≤ 7` and
"8+ days" for `days ≥ 8`, with the stated boundary values at
3, 4, 7 and 8. -/
theorem categorize_delivery_speed_buckets (d : ℚ) :
    (d ≤ 3 → categorize_delivery_speed (PyFloat.num d) = "1-3 days") ∧
    (4 ≤ d → d ≤ 7 → categorize_delivery_speed (PyFloat.num d) = "4-7 days") ∧
    (8 ≤ d → categorize_delivery_speed (PyFloat.num d) = "8+ days") ∧
    categorize_delivery_speed (PyFloat.num 3) = "1-3 days" ∧
    categorize_delivery_speed (PyFloat.num 4) = "4-7 days" ∧
    categorize_delivery_speed (PyFloat.num 7) = "4-7 days" ∧
    categorize_delivery_speed (PyFloat.num 8) = "8+ days" := by
  refine ⟨?_, ?_, ?_, by decide, by decide, by decide, by decide⟩
  · intro h
    simp [categorize_delivery_speed, PyFloat.le, h]
  · intro h4 h7
    have h3 : ¬ (d ≤ 3) := by linarith
    simp [categorize_delivery_speed, PyFloat.le, h3, h7]
  · intro h8
    have h3 : ¬ (d ≤ 3) := by linarith
    have h7 : ¬ (d ≤ 7) := by linarith
    simp [categorize_delivery_speed, PyFloat.le, h3, h7]

/-- Witness for C9: one concrete day count inside each bucket. -/
theorem categorize_delivery_speed_buckets_witness :
    categorize_delivery_speed (PyFloat.num 2) = "1-3 days" ∧
    categorize_delivery_speed (PyFloat.num 5) = "4-7 days" ∧
    categorize_delivery_speed (PyFloat.num 9) = "8+ days" :=
  ⟨(categorize_delivery_speed_buckets 2).1 (by norm_num),
   (categorize_delivery_speed_buckets 5).2.1 (by norm_num) (by norm_num),
   (categorize_delivery_speed_buckets 9).2.2.1 (by norm_num)⟩

/-- C10: called with a missing (`NaN`) day count, `categorize_delivery_speed`
neither raises nor returns a missing value: both IEEE comparisons are
false, so it falls through to "8+ days"; indeed on every input it returns
one of the three category labels. -/
theorem categorize_delivery_speed_nan_falls_through :
    categorize_delivery_speed PyFloat.nan = "8+ days" ∧
    ∀ d : PyFloat,
      categorize_delivery_speed d = "1-3 days" ∨
      categorize_delivery_speed d = "4-7 days" ∨
      categorize_delivery_speed d = "8+ days" := by
  refine ⟨rfl, ?_⟩
  intro d
  unfold categorize_delivery_speed
  split
  · exact Or.inl rfl
  · split
    · exact Or.inr (Or.inl rfl)
    · exact Or.inr (Or.inr rfl)

theorem flatMap_congr_left {β γ : Type} {f g : β → List γ} :
    ∀ l : List β, (∀ a ∈ l, f a = g a) → l.flatMap f = l.flatMap g := by
  intro l h
  induction l with
  | nil => simp
  | cons x xs ih =>
    rw [List.flatMap_cons, List.flatMap_cons, h x (List.mem_cons_self x xs),
      ih (fun a ha => h a (List.mem_cons_of_mem x ha))]

/-- C5: `build_sales_data` inner-joins items to orders on the order
identifier (unique per the data model), so its row count is at most the
item count, equals it when every item's order id occurs among the
orders, and an item with no matching order is dropped without a trace. -/
theorem build_sales_data_row_count (orders : List OrderRow)
    (items : List ItemRow)
    (hnd : (orders.map (fun o => o.order_id)).Nodup) :
    (build_sales_data orders items).length ≤ items.length ∧
    ((∀ it ∈ items, it.order_id ∈ orders.map (fun o => o.order_id)) →
      (build_sales_data orders items).length = items.length) ∧
    (∀ (l1 l2 : List ItemRow) (it : ItemRow),
      it.order_id ∉ orders.map (fun o => o.order_id) →
      build_sales_data orders (l1 ++ it :: l2) =
        build_sales_data orders (l1 ++ l2)) := by
  have hlen : ∀ its : List ItemRow, (build_sales_data orders its).length =
      (its.map (fun it =>
        (orders.filter (fun o => o.order_id == it.order_id)).length)).sum := by
    intro its
    simp only [build_sales_data]
    rw [length_flatMap_eq]
    congr 1
    apply List.map_congr_left
    intro it _
    rw [List.length_map]
  refine ⟨?_, ?_, ?_⟩
  · rw [hlen]
    exact sum_map_le_length _ _ (fun it _ =>
      filter_key_length_le_one (fun o => o.order_id) it.order_id orders hnd)
  · intro hall
    rw [hlen]
    exact sum_map_eq_length _ _ (fun it hit =>
      filter_key_length_eq_one (fun o => o.order_id) it.order_id orders hnd
        (hall it hit))
  · intro l1 l2 it hnotin
    have hfil : orders.filter (fun o => o.order_id == it.order_id) = [] := by
      rw [List.filter_eq_nil_iff]
      intro o ho hbeq
      have ho2 : o.order_id = it.order_id := by simpa using hbeq
      exact hnotin (List.mem_map.mpr ⟨o, ho, ho2⟩)
    simp only [build_sales_data, List.flatMap_append, List.flatMap_cons, hfil,
      List.map_nil, List.nil_append]

/-- Witness for C5 on a concrete pair of tables in which every item
matches an order. -/
theorem build_sales_data_row_count_witness :
    (build_sales_data [sampleOrder 1, sampleOrder 2]
      [sampleItem 1 1 1 10, sampleItem 2 1 1 20]).length =
      [sampleItem 1 1 1 10, sampleItem 2 1 1 20].length :=
  (build_sales_data_row_count [sampleOrder 1, sampleOrder 2]
    [sampleItem 1 1 1 10, sampleItem 2 1 1 20] (by decide)).2.1 (by decide)

/-- C6: `calculate_category_revenue` is sorted non-increasing by revenue,
and a sales row whose product id is absent from the product catalog is
excluded entirely — removing it leaves every category's revenue
unchanged. -/
theorem category_revenue_sorted_and_excludes_unknown
    (sales_data : List SalesRow) (products : List ProductRow) :
    List.Sorted revDescRel (calculate_category_revenue sales_data products) ∧
    (∀ (l1 l2 : List SalesRow) (s : SalesRow),
      s.product_id ∉ products.map (fun p => p.product_id) →
      calculate_category_revenue (l1 ++ s :: l2) products =
        calculate_category_revenue (l1 ++ l2) products) := by
  constructor
  · simp only [calculate_category_revenue]
    exact List.sorted_insertionSort revDescRel _
  · intro l1 l2 s hnotin
    have hmerged : products.flatMap (fun p =>
        ((l1 ++ s :: l2).filter
          (fun s2 => s2.product_id == p.product_id)).map
            (fun s2 => (p.product_category_name, s2.price)))
        = products.flatMap (fun p =>
        ((l1 ++ l2).filter (fun s2 => s2.product_id == p.product_id)).map
          (fun s2 => (p.product_category_name, s2.price))) := by
      apply flatMap_congr_left
      intro p hp
      have hfalse : (s.product_id == p.product_id) = false := by
        simp only [beq_eq_false_iff_ne]
        intro he
        exact hnotin (List.mem_map.mpr ⟨p, hp, he.symm⟩)
      rw [List.filter_append, List.filter_append, List.filter_cons]
      simp [hfalse]
    simp only [calculate_category_revenue]
    rw [hmerged]

/-- Witness for C6: dropping a concrete sales row whose product id 99 is
not in the catalog leaves the category revenue table unchanged. -/
theorem category_revenue_excludes_unknown_witness :
    calculate_category_revenue
        ([salesForProduct 1 10] ++ salesForProduct 99 50 :: [])
        [sampleProduct 1 "books"] =
      calculate_category_revenue ([salesForProduct 1 10] ++ [])
        [sampleProduct 1 "books"] :=
  (category_revenue_sorted_and_excludes_unknown
    ([salesForProduct 1 10] ++ salesForProduct 99 50 :: [])
    [sampleProduct 1 "books"]).2 [salesForProduct 1 10] []
    (salesForProduct 99 50) (by decide)

/-- C8: `add_delivery_speed` gives a row without a delivery timestamp a
missing (`none`) delivery speed — never an error, never zero — and
`calculate_average_delivery_time` ignores such rows: removing one leaves
the average unchanged, and on a concrete mix of a 4-day delivery and an
undelivered row the average is 4, not 2. -/
theorem add_delivery_speed_missing_and_mean_ignores :
    (∀ (sales_data : List SalesRow) (i : ℕ) (s : SalesRow),
      sales_data[i]? = some s → s.order_delivered_customer_date = none →
      (add_delivery_speed sales_data)[i]? =
        some { toSalesRow := s, delivery_speed_days := none }) ∧
    (∀ (l1 l2 : List SalesRow) (s : SalesRow),
      s.order_delivered_customer_date = none →
      calculate_average_delivery_time (add_delivery_speed (l1 ++ s :: l2)) =
        calculate_average_delivery_time (add_delivery_speed (l1 ++ l2))) ∧
    calculate_average_delivery_time
      (add_delivery_speed [deliveredRow 1 4, sampleRow 2 10 1]) = some 4 := by
  refine ⟨?_, ?_, ?_⟩
  · intro sales_data i s hi hnone
    simp only [add_delivery_speed, List.getElem?_map, hi]
    simp [hnone]
  · intro l1 l2 s hnone
    have hg : ∀ l : List SalesRow,
        (add_delivery_speed l).filterMap (fun t => t.delivery_speed_days)
          = l.filterMap (fun r => r.order_delivered_customer_date.map
              (fun d => ⌊d.absDays - r.order_purchase_timestamp.absDays⌋)) := by
      intro l
      simp only [add_delivery_speed, List.filterMap_map]
      rfl
    simp only [calculate_average_delivery_time, hg]
    rw [List.filterMap_append, List.filterMap_append, List.filterMap_cons]
    simp [hnone]
  · simp [calculate_average_delivery_time, add_delivery_speed, deliveredRow,
      sampleRow, sampleTs]

/-- Witness for C8: removing the concrete undelivered row leaves the
concrete average unchanged. -/
theorem add_delivery_speed_missing_and_mean_ignores_witness :
    calculate_average_delivery_time
        (add_delivery_speed ([deliveredRow 1 4] ++ sampleRow 2 10 1 :: [])) =
      calculate_average_delivery_time
        (add_delivery_speed ([deliveredRow 1 4] ++ [])) :=
  add_delivery_speed_missing_and_mean_ignores.2.1 [deliveredRow 1 4] []
    (sampleRow 2 10 1) (by decide)

/-- C1: `calculate_average_order_value` is the arithmetic mean, over the
distinct order identifiers, of the per-order price sums — equivalently
total revenue divided by the distinct-order count — and not the mean
over items: on two orders with items priced [10, 20] and [15] it yields
45/2 = 22.5, while the per-item mean is 15. -/
theorem average_order_value_is_per_order_mean (sales_data : List SalesRow)
    (hne : sales_data ≠ []) :
    calculate_average_order_value sales_data =
      some (((dropDuplicates (sales_data.map (fun s => s.order_id))).map
          (fun o => ((sales_data.filter (fun s => s.order_id == o)).map
            (fun s => s.price)).sum)).sum /
        ((dropDuplicates (sales_data.map (fun s => s.order_id))).length : ℚ)) ∧
    calculate_average_order_value sales_data =
      some (calculate_total_revenue sales_data /
        (calculate_order_count sales_data : ℚ)) ∧
    calculate_average_order_value
        [sampleRow 1 10 1, sampleRow 1 20 1, sampleRow 2 15 1] =
      some (45 / 2) ∧
    calculate_total_revenue [sampleRow 1 10 1, sampleRow 1 20 1, sampleRow 2 15 1] /
        (([sampleRow 1 10 1, sampleRow 1 20 1, sampleRow 2 15 1] : List SalesRow).length : ℚ)
      = 15 ∧
    (45 : ℚ) / 2 ≠ 15 := by
  have hd : dropDuplicates (sales_data.map (fun s => s.order_id)) ≠ [] := by
    cases sales_data with
    | nil => exact absurd rfl hne
    | cons x xs =>
      rw [List.map_cons, dropDuplicates_cons]
      exact List.cons_ne_nil _ _
  have hgknil : groupKeys (· ≤ ·) (sales_data.map (fun s => s.order_id)) ≠ [] := by
    intro h
    apply hd
    have hp := groupKeys_perm (· ≤ ·) (sales_data.map (fun s => s.order_id))
    rw [h] at hp
    exact List.Perm.eq_nil hp.symm
  have hempty : (groupKeys (· ≤ ·)
      (sales_data.map (fun s => s.order_id))).isEmpty = false := by
    cases hgk : groupKeys (· ≤ ·) (sales_data.map (fun s => s.order_id)) with
    | nil => exact absurd hgk hgknil
    | cons a as => rfl
  have h1 : calculate_average_order_value sales_data =
      some (((dropDuplicates (sales_data.map (fun s => s.order_id))).map
          (fun o => ((sales_data.filter (fun s => s.order_id == o)).map
            (fun s => s.price)).sum)).sum /
        ((dropDuplicates (sales_data.map (fun s => s.order_id))).length : ℚ)) := by
    simp only [calculate_average_order_value]
    rw [if_neg (by simp [hempty])]
    rw [sum_map_groupKeys, length_groupKeys]
  refine ⟨h1, ?_, ?_, ?_, by norm_num⟩
  · rw [h1]
    simp only [calculate_total_revenue, calculate_order_count]
    rw [sum_grouped (fun s => s.order_id) (fun s => s.price) sales_data]
  · norm_num [calculate_average_order_value, groupKeys, dropDuplicates_cons,
      dropDuplicates_nil, sampleRow, sampleTs, List.insertionSort,
      List.orderedInsert]
  · norm_num [calculate_total_revenue, sampleRow, sampleTs]

/-- Witness for C1 on a concrete non-empty record set. -/
theorem average_order_value_is_per_order_mean_witness :
    calculate_average_order_value [sampleRow 1 10 1] =
      some (calculate_total_revenue [sampleRow 1 10 1] /
        (calculate_order_count [sampleRow 1 10 1] : ℚ)) :=
  (average_order_value_is_per_order_mean [sampleRow 1 10 1] (by decide)).2.1

/-- C7: whenever some review matches the records' order ids,
`calculate_review_score_distribution` lists the observed scores in
ascending order with their relative frequencies: every listed proportion
is positive (zero-count scores are omitted), equals count/total for its
score, and the proportions sum to 1; over scores [5,5,4,3] the result is
[(3, 1/4), (4, 1/4), (5, 1/2)]. -/
theorem review_score_distribution_normalized (sales_data : List SalesRow)
    (reviews : List ReviewRow) :
    ∀ scores : List ℕ,
    scores = (reviews.filter (fun r =>
      (dropDuplicates (sales_data.map (fun s => s.order_id))).contains
        r.order_id)).map (fun r => r.review_score) →
    scores ≠ [] →
    ((calculate_review_score_distribution sales_data reviews).map
        (fun x => x.1)).Sorted (· < ·) ∧
    ((calculate_review_score_distribution sales_data reviews).map
        (fun x => x.2)).sum = 1 ∧
    (∀ x ∈ calculate_review_score_distribution sales_data reviews,
      0 < x.2 ∧ x.1 ∈ scores ∧
      x.2 = ((scores.countP (fun w => w == x.1) : ℕ) : ℚ) /
        (scores.length : ℚ)) ∧
    calculate_review_score_distribution
        [sampleRow 1 10 1, sampleRow 2 10 1, sampleRow 3 10 1, sampleRow 4 10 1]
        [sampleReview 1 5, sampleReview 2 5, sampleReview 3 4, sampleReview 4 3]
      = [(3, 1/4), (4, 1/4), (5, 1/2)] := by
  intro scores hsc hne
  subst hsc
  set scores := (reviews.filter (fun r =>
    (dropDuplicates (sales_data.map (fun s => s.order_id))).contains
      r.order_id)).map (fun r => r.review_score) with hscores
  have hdist : calculate_review_score_distribution sales_data reviews =
      (groupKeys (· ≤ ·) scores).map (fun v =>
        (v, ((scores.countP (fun w => w == v) : ℕ) : ℚ) /
          (scores.length : ℚ))) := rfl
  have hN : 0 < scores.length := List.length_pos.mpr hne
  have hNQ : ((scores.length : ℕ) : ℚ) ≠ 0 := by
    exact_mod_cast Nat.pos_iff_ne_zero.mp hN
  refine ⟨?_, ?_, ?_, ?_⟩
  · rw [hdist, List.map_map]
    show List.Sorted (· < ·) ((groupKeys (· ≤ ·) scores).map (fun v => v))
    rw [List.map_id']
    exact (sorted_groupKeys (· ≤ ·) scores).lt_of_le (nodup_groupKeys _ _)
  · rw [hdist, List.map_map]
    show ((groupKeys (· ≤ ·) scores).map (fun v =>
      ((scores.countP (fun w => w == v) : ℕ) : ℚ) /
        (scores.length : ℚ))).sum = 1
    rw [sum_map_groupKeys, sum_map_div, sum_grouped_count]
    exact div_self hNQ
  · intro x hx
    rw [hdist] at hx
    obtain ⟨v, hv, rfl⟩ := List.mem_map.mp hx
    have hvs : v ∈ scores := mem_groupKeys.mp hv
    have hcnt : 0 < scores.countP (fun w => w == v) :=
      List.countP_pos_iff.mpr ⟨v, hvs, by simp⟩
    refine ⟨?_, hvs, rfl⟩
    have h0 : (0 : ℚ) < ((scores.countP (fun w => w == v) : ℕ) : ℚ) := by
      exact_mod_cast hcnt
    have h1 : (0 : ℚ) < (scores.length : ℚ) := by exact_mod_cast hN
    exact div_pos h0 h1
  · norm_num [calculate_review_score_distribution, groupKeys,
      dropDuplicates_cons, dropDuplicates_nil, sampleRow, sampleReview,
      sampleTs, List.insertionSort, List.orderedInsert]

/-- Witness for C7: on the concrete tables the proportions sum to 1. -/
theorem review_score_distribution_normalized_witness :
    ((calculate_review_score_distribution
        [sampleRow 1 10 1, sampleRow 2 10 1, sampleRow 3 10 1, sampleRow 4 10 1]
        [sampleReview 1 5, sampleReview 2 5, sampleReview 3 4, sampleReview 4 3]).map
      (fun x => x.2)).sum = 1 :=
  (review_score_distribution_normalized
    [sampleRow 1 10 1, sampleRow 2 10 1, sampleRow 3 10 1, sampleRow 4 10 1]
    [sampleReview 1 5, sampleReview 2 5, sampleReview 3 4, sampleReview 4 3]
    _ rfl (by
      norm_num [dropDuplicates_cons, dropDuplicates_nil, sampleRow,
        sampleReview, sampleTs]
      exact List.cons_ne_nil _ _)).2.1

theorem zipWith_snd_map {α β γ : Type} (g : β → γ) :
    ∀ (bs : List β) (as : List α), bs.length ≤ as.length →
      List.zipWith (fun _ b => g b) as bs = bs.map g := by
  intro bs
  induction bs with
  | nil => intro as _; simp
  | cons b bs ih =>
    intro as hlen
    cases as with
    | nil => simp at hlen
    | cons a as =>
      simp only [List.zipWith_cons_cons, List.map_cons]
      rw [ih as (by simpa using hlen)]

theorem pct_change_map_fst (l : List (ℕ × ℚ)) :
    (pct_change l).map (fun x => x.1) = l.map (fun x => x.1) := by
  cases l with
  | nil => rfl
  | cons x rest =>
    simp only [pct_change, List.map_cons]
    congr 1
    rw [List.map_zipWith]
    exact zipWith_snd_map (fun c => c.1) rest (x :: rest)
      (by simp [Nat.le_succ])

theorem pct_change_getElem_zero (l : List (ℕ × ℚ)) :
    (pct_change l)[0]? = l[0]?.map (fun x => (x.1, PyFloat.nan)) := by
  cases l with
  | nil => rfl
  | cons x rest => simp [pct_change]

theorem pct_change_getElem_succ (l : List (ℕ × ℚ)) (i : ℕ) :
    (pct_change l)[i + 1]? =
      match l[i]?, l[i + 1]? with
      | some p, some c => some (c.1, floatDiv (c.2 - p.2) p.2)
      | _, _ => none := by
  cases l with
  | nil => simp [pct_change]
  | cons x rest =>
    show ((x.1, PyFloat.nan) ::
      List.zipWith (fun p c => (c.1, floatDiv (c.2 - p.2) p.2))
        (x :: rest) rest)[i + 1]? = _
    rw [List.getElem?_cons_succ, List.getElem?_zipWith,
      List.getElem?_cons_succ]
    cases h1 : (x :: rest)[i]? <;> cases h2 : rest[i]? <;> simp

/-- C4: `calculate_monthly_growth` carries exactly the months of
`calculate_monthly_revenue`, in ascending order; its first entry is the
undefined (`NaN`) value, and each later entry is the percent change
`(v − prev) / prev` of consecutive monthly revenues; on the 3-month
series [100, 150, 90] it yields [NaN, 0.5, −0.4]. -/
theorem monthly_growth_is_month_over_month (sales_data : List SalesRow) :
    (calculate_monthly_growth sales_data).map (fun x => x.1) =
      (calculate_monthly_revenue sales_data).map (fun x => x.1) ∧
    ((calculate_monthly_revenue sales_data).map (fun x => x.1)).Sorted (· < ·) ∧
    (calculate_monthly_growth sales_data)[0]? =
      (calculate_monthly_revenue sales_data)[0]?.map
        (fun x => (x.1, PyFloat.nan)) ∧
    (∀ i : ℕ, (calculate_monthly_growth sales_data)[i + 1]? =
      match (calculate_monthly_revenue sales_data)[i]?,
          (calculate_monthly_revenue sales_data)[i + 1]? with
        | some p, some c => some (c.1, floatDiv (c.2 - p.2) p.2)
        | _, _ => none) ∧
    calculate_monthly_growth
        [sampleRow 1 100 1, sampleRow 2 150 2, sampleRow 3 90 3] =
      [(1, PyFloat.nan), (2, PyFloat.num (1/2)), (3, PyFloat.num (-2/5))] := by
  refine ⟨pct_change_map_fst _, ?_, pct_change_getElem_zero _,
    fun i => pct_change_getElem_succ _ i, ?_⟩
  · simp only [calculate_monthly_revenue, List.map_map]
    show List.Sorted (· < ·)
      ((groupKeys (· ≤ ·) (sales_data.map (fun s => s.month))).map (fun m => m))
    rw [List.map_id']
    exact (sorted_groupKeys (· ≤ ·) _).lt_of_le (nodup_groupKeys _ _)
  · norm_num [calculate_monthly_growth, calculate_monthly_revenue, groupKeys,
      dropDuplicates_cons, dropDuplicates_nil, sampleRow, sampleTs,
      List.insertionSort, List.orderedInsert, pct_change, floatDiv]

theorem mem_drcMerged {sales : List SalesRowC} {reviews : List ReviewRow}
    {x : SalesRowC × ℕ} :
    x ∈ drcMerged sales reviews ↔
      x.1 ∈ sales ∧ ∃ r ∈ reviews, r.order_id = x.1.order_id ∧
        x.2 = r.review_score := by
  simp only [drcMerged, List.mem_flatMap, List.mem_map, List.mem_filter]
  constructor
  · rintro ⟨s, hs, r, ⟨hr, hbeq⟩, rfl⟩
    exact ⟨hs, r, hr, by simpa using hbeq, rfl⟩
  · rintro ⟨hx1, r, hr, hid, hx2⟩
    refine ⟨x.1, hx1, r, ⟨hr, by simpa using hid⟩, ?_⟩
    cases x with
    | mk s v =>
      simp only at hx2
      rw [hx2]

theorem mem_drcPerOrder {sales : List SalesRowC} {reviews : List ReviewRow}
    {t : ℕ × Option ℤ × String × ℕ} :
    t ∈ drcPerOrder sales reviews ↔
      ∃ s ∈ sales, ∃ r ∈ reviews, r.order_id = s.order_id ∧
        t = drcKey s r.review_score := by
  rw [drcPerOrder, mem_dropDuplicates]
  rw [List.mem_map]
  constructor
  · rintro ⟨⟨s, v⟩, hmem, rfl⟩
    obtain ⟨hs, r, hr, hid, hv⟩ := mem_drcMerged.mp hmem
    simp only at hs hid hv
    exact ⟨s, hs, r, hr, hid, by rw [hv]⟩
  · rintro ⟨s, hs, r, hr, hid, rfl⟩
    exact ⟨(s, r.review_score), mem_drcMerged.mpr ⟨hs, r, hr, hid, rfl⟩, rfl⟩

/-- C3: when each order has at most one review and all sales rows of an
order agree on the delivery-speed columns, the de-duplicated per-order
table behind `calculate_delivery_review_correlation` holds at most one
row per order — and exactly the (order, speed, category, score) row for
each reviewed order — so a 3-item order with category "1-3 days" and
review score 4 contributes a single observation of 4 to that category's
mean. -/
theorem delivery_review_correlation_counts_order_once
    (sales_data_with_speed : List SalesRowC) (reviews : List ReviewRow)
    (hrev : ∀ r1 ∈ reviews, ∀ r2 ∈ reviews,
      r1.order_id = r2.order_id → r1 = r2)
    (hrows : ∀ s1 ∈ sales_data_with_speed, ∀ s2 ∈ sales_data_with_speed,
      s1.order_id = s2.order_id →
      s1.delivery_speed_days = s2.delivery_speed_days ∧
      s1.delivery_time = s2.delivery_time) :
    (∀ o : ℕ, (drcPerOrder sales_data_with_speed reviews).countP
      (fun t => t.1 == o) ≤ 1) ∧
    (∀ s ∈ sales_data_with_speed, ∀ r ∈ reviews, r.order_id = s.order_id →
      drcKey s r.review_score ∈ drcPerOrder sales_data_with_speed reviews) ∧
    (drcPerOrder
        [sampleRowC 1 1 2 "1-3 days", sampleRowC 1 2 2 "1-3 days",
          sampleRowC 1 3 2 "1-3 days"] [sampleReview 1 4]).countP
      (fun t => t.1 == 1) = 1 ∧
    calculate_delivery_review_correlation
        [sampleRowC 1 1 2 "1-3 days", sampleRowC 1 2 2 "1-3 days",
          sampleRowC 1 3 2 "1-3 days"] [sampleReview 1 4]
      = [("1-3 days", 4)] := by
  refine ⟨?_, ?_, ?_, ?_⟩
  · intro o
    apply countP_le_one_of_nodup _ _ (nodup_dropDuplicates _)
    intro a ha b hb hpa hpb
    obtain ⟨s1, hs1, r1, hr1, hid1, rfl⟩ := mem_drcPerOrder.mp ha
    obtain ⟨s2, hs2, r2, hr2, hid2, rfl⟩ := mem_drcPerOrder.mp hb
    have ho1 : s1.order_id = o := by simpa [drcKey] using hpa
    have ho2 : s2.order_id = o := by simpa [drcKey] using hpb
    have hsame : s1.delivery_speed_days = s2.delivery_speed_days ∧
        s1.delivery_time = s2.delivery_time :=
      hrows s1 hs1 s2 hs2 (ho1.trans ho2.symm)
    have hr12 : r1 = r2 :=
      hrev r1 hr1 r2 hr2 (by rw [hid1, hid2, ho1, ho2])
    simp only [drcKey, ho1, ho2, hsame.1, hsame.2, hr12]
  · intro s hs r hr hid
    exact mem_drcPerOrder.mpr ⟨s, hs, r, hr, hid, rfl⟩
  · norm_num [drcPerOrder, drcMerged, drcKey, dropDuplicates_cons,
      dropDuplicates_nil, sampleRowC, sampleRow, sampleReview, sampleTs]
  · norm_num [calculate_delivery_review_correlation, drcPerOrder, drcMerged,
      drcKey, groupKeys, dropDuplicates_cons, dropDuplicates_nil,
      sampleRowC, sampleRow, sampleReview, sampleTs, List.insertionSort,
      List.orderedInsert]

/-- Witness for C3: the hypotheses hold on the concrete 3-item-order
tables, and there the order's row is counted exactly once. -/
theorem delivery_review_correlation_counts_order_once_witness :
    (drcPerOrder
        [sampleRowC 1 1 2 "1-3 days", sampleRowC 1 2 2 "1-3 days",
          sampleRowC 1 3 2 "1-3 days"] [sampleReview 1 4]).countP
      (fun t => t.1 == 1) = 1 :=
  (delivery_review_correlation_counts_order_once
    [sampleRowC 1 1 2 "1-3 days", sampleRowC 1 2 2 "1-3 days",
      sampleRowC 1 3 2 "1-3 days"] [sampleReview 1 4]
    (by decide) (by decide)).2.2.1
